import Mathlib

/-!
# Verification of the firehose-grpc block streaming service

A shallow embedding of the Rust sources of `firehose-grpc` (cursor codec,
stream orchestrator, single-block fetch, range splitter, hot-block retry
loop, fork navigator, and the canonical-to-wire transaction encoder),
together with proofs and refutations of the specification claims.

Machine integers (`u64`, `u32`, `i32`) are modelled as `Nat`/`Int`; where a
Rust operation can fail (panic, `unwrap`, arithmetic underflow, index out of
bounds, `Err` propagation) the embedded function returns `Option`/`Except`
with `none`/`error` for the failure.
-/

/-! ## Character / string primitives

`firehose-grpc` manipulates cursors and numeric fields as strings.  We model
the relevant Rust primitives: `str::split(':')`, `u64::from_str` (base-10
parse with optional leading `+` and an overflow check at `2^64`) and the
`Display` rendering of a `u64` (base-10 digits).
-/

/-- The decimal digit character for `d` (`d < 10`); other inputs map to `'*'`
(never produced on the paths we model). -/
def digitChar10 (d : Nat) : Char :=
  match d with
  | 0 => '0' | 1 => '1' | 2 => '2' | 3 => '3' | 4 => '4'
  | 5 => '5' | 6 => '6' | 7 => '7' | 8 => '8' | 9 => '9'
  | _ => '*'

/-- Is `c` an ASCII decimal digit (Rust `char::is_ascii_digit`)? -/
def isDigit10 (c : Char) : Bool :=
  48 ≤ c.toNat && c.toNat ≤ 57

/-- Fuel-driven helper for `natDigits` (structural recursion, so that the
kernel can evaluate it on literals). -/
def natDigitsGo : Nat → Nat → List Char
  | 0, n => [digitChar10 n]
  | fuel + 1, n =>
    if n < 10 then [digitChar10 n]
    else natDigitsGo fuel (n / 10) ++ [digitChar10 (n % 10)]

/-- Base-10 rendering of a natural number, as Rust `u64: Display` produces
it: most significant digit first, no sign, no leading zeros (except "0"). -/
def natDigits (n : Nat) : List Char :=
  natDigitsGo n n

/-- Rust `str::split(c)`: splits at every occurrence of the separator; the
empty string yields `[[]]`, a leading/trailing/double separator yields empty
fields. -/
def splitOnSep (sep : Char) : List Char → List (List Char)
  | [] => [[]]
  | c :: rest =>
    if c = sep then [] :: splitOnSep sep rest
    else
      match splitOnSep sep rest with
      | [] => [[c]]
      | f :: fs => (c :: f) :: fs

/-- Accumulating base-10 evaluation of a digit list (the core loop of Rust's
`u64::from_str`). -/
def decValFrom (acc : Nat) (cs : List Char) : Nat :=
  cs.foldl (fun a c => a * 10 + (c.toNat - 48)) acc

/-- Rust `u64::from_str`: optional leading `'+'`, then one or more ASCII
digits; any other character, an empty digit sequence, or a value not fitting
in 64 bits is an error (`none`). -/
def parseU64 (cs : List Char) : Option Nat :=
  let ds := if cs.head? = some '+' then cs.tail else cs
  if ds.isEmpty then none
  else if ds.all isDigit10 then
    let v := decValFrom 0 ds
    if v < 2 ^ 64 then some v else none
  else none

/-! ## Data model: `HashAndHeight` and `Cursor` (src/datasource.rs, src/cursor.rs) -/

/-- Rust `datasource::HashAndHeight`: a block hash together with its height. -/
structure HashAndHeight where
  hash : String
  height : Nat
deriving DecidableEq, Repr

/-- Rust `cursor::Cursor`: the current block and the last known finalized block. -/
structure Cursor where
  block : HashAndHeight
  finalized : HashAndHeight
deriving DecidableEq, Repr

/-- Rust `impl fmt::Display for Cursor` (src/cursor.rs:42-50):
`"{}:{}:{}:{}"` applied to block height, block hash, finalized height,
finalized hash. -/
def Cursor.toStr (c : Cursor) : String :=
  String.mk (natDigits c.block.height ++ ':' :: c.block.hash.data ++
    ':' :: natDigits c.finalized.height ++ ':' :: c.finalized.hash.data)

/-- Rust `impl TryFrom<String> for Cursor` (src/cursor.rs:16-40): split on `':'`,
require exactly four fields, parse fields 0 and 2 as `u64` heights, take
fields 1 and 3 as hashes. -/
def Cursor.tryFrom (value : String) : Except String Cursor :=
  match splitOnSep ':' value.data with
  | [s0, s1, s2, s3] =>
    match parseU64 s0 with
    | none => .error "invalid block height"
    | some h =>
      match parseU64 s2 with
      | none => .error "invalid finalized block height"
      | some fh =>
        .ok { block := { hash := String.mk s1, height := h },
              finalized := { hash := String.mk s3, height := fh } }
  | _ => .error "invalid cursor"

/-! ## Archive data model (src/archive.rs)

The canonical records returned by the archive source, as consumed by the
wire encoder in `src/firehose.rs`.  Rust `u64`/`u32` become `Nat`, `i32`
becomes `Int`, `Option` stays `Option`.  The raw-identifier field `r#type`
is spelled `r_type`.
-/

/-- Rust `archive::BlockHeader`. -/
structure ArchBlockHeader where
  number : Nat
  hash : String
  parent_hash : String
  size : Nat
  sha3_uncles : String
  miner : String
  state_root : String
  transactions_root : String
  receipts_root : String
  logs_bloom : String
  difficulty : String
  total_difficulty : String
  gas_limit : String
  gas_used : String
  timestamp : Nat
  extra_data : String
  mix_hash : String
  nonce : String
  base_fee_per_gas : Option String
deriving DecidableEq, Repr

/-- Rust `archive::Log`. -/
structure ArchLog where
  address : String
  data : String
  topics : List String
  log_index : Nat
  transaction_index : Nat
deriving DecidableEq, Repr

/-- Rust `archive::Transaction`. -/
structure ArchTransaction where
  transaction_index : Nat
  hash : String
  nonce : Nat
  «from» : String
  «to» : Option String
  input : String
  value : String
  gas : String
  gas_price : String
  max_fee_per_gas : Option String
  max_priority_fee_per_gas : Option String
  v : String
  r : String
  s : String
  y_parity : Option Nat
  gas_used : String
  cumulative_gas_used : String
  effective_gas_price : String
  r_type : Int
  status : Int
deriving DecidableEq, Repr

/-- Rust `archive::TraceType`. -/
inductive ArchTraceType where
  | Create | Call | Suicide | Reward
deriving DecidableEq, Repr

/-- Rust `archive::CallType`. -/
inductive ArchCallType where
  | Call | Callcode | Delegatecall | Staticcall
deriving DecidableEq, Repr

/-- Modelled from the spec: the flat `archive::Trace` record revision
consumed by `src/firehose.rs` (lines 270-338) and selected by its
`TraceFieldSelection` (lines 125-143).  The checked-in `src/archive.rs`
carries a different (nested `action`/`result`) revision of this struct, so
the flat field list is reconstructed from the field accesses in
`src/firehose.rs`, which are the code under verification here. -/
structure ArchTrace where
  transaction_index : Nat
  r_type : ArchTraceType
  call_type : Option ArchCallType
  error : Option String
  revert_reason : Option String
  create_from : Option String
  call_from : Option String
  create_result_address : Option String
  call_to : Option String
  create_value : Option String
  call_value : Option String
  create_gas : Option String
  call_gas : Option String
  create_result_gas_used : Option String
  call_result_gas_used : Option String
  call_result_output : Option String
  call_input : Option String
deriving DecidableEq, Repr

/-- Rust `archive::Block`: header plus optional logs / transactions / traces. -/
structure ArchBlock where
  header : ArchBlockHeader
  logs : Option (List ArchLog)
  transactions : Option (List ArchTransaction)
  traces : Option (List ArchTrace)
deriving DecidableEq, Repr

/-! ## Stream orchestrator pieces (src/firehose.rs, src/stream.rs) -/

/-- The stop bound computed by `Firehose::blocks` (src/firehose.rs:149-153):
`if from_block != stop_block_num && stop_block_num == 0 { None } else
{ Some(stop_block_num) }`. -/
def toBlockOf (from_block stop_block_num : Nat) : Option Nat :=
  if from_block ≠ stop_block_num ∧ stop_block_num = 0 then none
  else some stop_block_num

/-- A streamed `pbfirehose::Response`, restricted to the fields the claims
are about.  The protobuf `Any` payload (the encoded block) carries no data
relevant to any claim and is not modelled. -/
structure Response where
  step : Nat
  cursor : String
deriving DecidableEq, Repr

/-- The `Response` yielded per block by `Firehose::blocks`
(src/firehose.rs:382-389): `step: 1`, `cursor: graph_block.number.to_string()`
with `graph_block.number = block.header.number` (line 181). -/
def firehoseBlockResponse (b : ArchBlock) : Response :=
  { step := 1, cursor := String.mk (natDigits b.header.number) }

/-- The responses produced by the emission loop `for block in blocks`
(src/firehose.rs:177-390) for one query result. -/
def firehoseResponses (bs : List ArchBlock) : List Response :=
  bs.map firehoseBlockResponse

/-- The `Response` sent per block by `ArchiveStream::blocks`
(src/stream.rs:242-249): `step: 1`, `cursor: request.get_ref().cursor.clone()`
(the client's request cursor echoed back). -/
def archiveStreamResponse (requestCursor : String) (_b : ArchBlock) : Response :=
  { step := 1, cursor := requestCursor }

/-- Rust `pbfirehose::single_block_request::Reference`. -/
inductive Reference where
  | blockNumber (num : Nat)
  | blockHashAndNumber (hash : String) (num : Nat)
  | cursor (c : String)
deriving DecidableEq, Repr

/-- Block-number resolution shared by `Firehose::block`
(src/firehose.rs:404-408) and `ArchiveFetch::block` (src/fetch.rs:30-34):
an explicit number, the `num` of a hash-and-number pair, or
`cursor.cursor.parse::<u64>()` (whose panic on failure is `none`). -/
def resolveBlockNum : Reference → Option Nat
  | .blockNumber num => some num
  | .blockHashAndNumber _ num => some num
  | .cursor c => parseU64 c.data

/-! ### Fixtures -/

/-- A concrete archive block header (number 7) for witnesses and
counterexamples. -/
def testHeader : ArchBlockHeader :=
  { number := 7, hash := "0x07", parent_hash := "0x06", size := 0,
    sha3_uncles := "", miner := "", state_root := "", transactions_root := "",
    receipts_root := "", logs_bloom := "", difficulty := "0x0",
    total_difficulty := "0x0", gas_limit := "0x0", gas_used := "0x0",
    timestamp := 0, extra_data := "0x", mix_hash := "", nonce := "0x0",
    base_fee_per_gas := none }

/-- A concrete archive block for witnesses and counterexamples. -/
def testBlock : ArchBlock :=
  { header := testHeader, logs := none, transactions := none, traces := none }

/-! ## Range splitter (src/ds_rpc.rs:547-558) -/

/-- Fuel-driven body of the `while from <= to` loop of `split_range`
(src/ds_rpc.rs:552-557).  The loop computes in `u64`: `from + step - 1`
overflows for `from ≥ 2^64 - 99`, and `from = to_ + 1` overflows when
`to_ = 2^64 - 1`; with checked (debug) arithmetic either overflow panics,
and with wrapping (release) arithmetic the loop never returns normally —
both modelled as `none`.  Each successful iteration pushes
`(from, min(from + 100 - 1, to))` and advances `from` past it, so
`to + 1 - from` fuel is always enough. -/
def splitRangeGo : Nat → Nat → Nat → Option (List (Nat × Nat))
  | 0, f, t => if f ≤ t then none else some []
  | fuel + 1, f, t =>
    if f ≤ t then
      if f + 100 - 1 < 2 ^ 64 then
        if min (f + 100 - 1) t + 1 < 2 ^ 64 then
          match splitRangeGo fuel (min (f + 100 - 1) t + 1) t with
          | none => none
          | some rest => some ((f, min (f + 100 - 1) t) :: rest)
        else none
      else none
    else some []

/-- Rust `split_range(from, to)` (src/ds_rpc.rs:547-558): `assert!(from <= to)`
(panic modelled as `none`), then chunk `[from, to]` into ranges with
`step = 100`; a `u64` overflow inside the loop is a failure (`none`) as
well. -/
def split_range (f t : Nat) : Option (List (Nat × Nat)) :=
  if f ≤ t then splitRangeGo (t + 1 - f) f t else none

/-- The contiguous-cover predicate: the ranges are non-empty, each starts at
`a`, continues exactly where the previous one ended, and the last one ends at
`b`.  This encodes "contiguous, non-overlapping, ascending, union = [a,b]". -/
def RangesCover (a b : Nat) : List (Nat × Nat) → Prop
  | [] => False
  | [r] => r.1 = a ∧ r.2 = b
  | r :: s :: rest => r.1 = a ∧ r.1 ≤ r.2 ∧ RangesCover (r.2 + 1) b (s :: rest)

/-! ## Canonical datasource model (src/datasource.rs)

`datasource::Log` and `datasource::Transaction` have exactly the fields of
`archive::Log` / `archive::Transaction`, so those records are reused; the
nested trace form gets its own records.
-/

/-- Rust `datasource::TraceAction`. -/
structure DsTraceAction where
  «from» : Option String
  «to» : Option String
  value : Option String
  gas : Option String
  input : Option String
  r_type : Option ArchCallType
deriving DecidableEq, Repr

/-- Rust `datasource::TraceResult`. -/
structure DsTraceResult where
  gas_used : Option String
  address : Option String
  output : Option String
deriving DecidableEq, Repr

/-- Rust `datasource::Trace` (nested action/result form). -/
structure DsTrace where
  transaction_index : Nat
  r_type : ArchTraceType
  error : Option String
  revert_reason : Option String
  action : Option DsTraceAction
  result : Option DsTraceResult
deriving DecidableEq, Repr

/-- Rust `datasource::BlockHeader`. -/
structure DsBlockHeader where
  number : Nat
  hash : String
  parent_hash : String
  size : Nat
  sha3_uncles : String
  miner : String
  state_root : String
  transactions_root : String
  receipts_root : String
  logs_bloom : String
  difficulty : String
  total_difficulty : String
  gas_limit : String
  gas_used : String
  timestamp : Nat
  extra_data : String
  mix_hash : String
  nonce : String
  base_fee_per_gas : Option String
deriving DecidableEq, Repr

/-- Rust `datasource::Block`. -/
structure DsBlock where
  header : DsBlockHeader
  logs : List ArchLog
  transactions : List ArchTransaction
  traces : List DsTrace
deriving DecidableEq, Repr

/-- Rust `datasource::HotUpdate`. -/
structure HotUpdate where
  blocks : List DsBlock
  base_head : HashAndHeight
  finalized_head : HashAndHeight
deriving DecidableEq, Repr

/-! ## Fork navigator (src/ds_rpc.rs:715-821)

The injected `get_block` callback (an `evm::BlockId` keyed RPC fetch) is an
oracle `BlockId → Option DsBlock`; `none` covers every failing fetch.  The
`best_head.hash.parse::<evm::H256>()?` step is modelled as always
succeeding (a parse failure only removes executions, and every theorem here
is conditioned on success).  The `u64` underflow panic of
`block.header.number - 1` at number 0 is modelled as failure, and so are the
`unwrap`/index panics on an emptied chain.
-/

/-- Rust `evm::BlockId`: fetch by number (`best.into()`) or by hash. -/
inductive BlockId where
  | number (n : Nat)
  | hash (h : String)
deriving DecidableEq, Repr

/-- The first `while` loop of `ForkNavigator::move` (src/ds_rpc.rs:760-768):
walk `best_head` backwards by parent hash while the chain tip is below it,
accumulating fetched blocks.  The chain is not modified by this loop, so
only the (fixed) tip height is passed.  Structural fuel stands for the
unbounded `while`. -/
def navWalkDown (g : BlockId → Option DsBlock) (tipHeight : Nat) :
    Nat → HashAndHeight → List DsBlock → Option (HashAndHeight × List DsBlock)
  | 0, bh, acc =>
    if tipHeight < bh.height then none else some (bh, acc)
  | fuel + 1, bh, acc =>
    if tipHeight < bh.height then
      match g (.hash bh.hash) with
      | none => none
      | some b =>
        if b.header.number = 0 then none
        else
          navWalkDown g tipHeight fuel
            { hash := b.header.parent_hash, height := b.header.number - 1 }
            (acc ++ [b])
    else some (bh, acc)

/-- The second `while` loop of `ForkNavigator::move` (src/ds_rpc.rs:770-779):
while the tip hash disagrees with `best_head`, fetch the parent and pop the
tip.  An emptied chain makes the next `chain.last().unwrap()` panic
(`none`). -/
def navUnwind (g : BlockId → Option DsBlock) :
    Nat → List HashAndHeight → HashAndHeight → List DsBlock →
    Option (List HashAndHeight × List DsBlock)
  | 0, chain, bh, acc =>
    match chain.getLast? with
    | none => none
    | some tip => if tip.hash ≠ bh.hash then none else some (chain, acc)
  | fuel + 1, chain, bh, acc =>
    match chain.getLast? with
    | none => none
    | some tip =>
      if tip.hash ≠ bh.hash then
        match g (.hash bh.hash) with
        | none => none
        | some b =>
          if b.header.number = 0 then none
          else
            navUnwind g fuel chain.dropLast
              { hash := b.header.parent_hash, height := b.header.number - 1 }
              (acc ++ [b])
      else some (chain, acc)

/-- The tail of `ForkNavigator::move` (src/ds_rpc.rs:782-820): reverse the
accumulated blocks, append their hash/height pairs to the chain, prune at
the finalized height (`chain[finalized_pos]` indexing and `chain[pos..]`
slicing panics modelled as `none`), and build the `HotUpdate`. -/
def navFinish (chain1 : List HashAndHeight) (accBlocks : List DsBlock)
    (finalized : Nat) : Option (HotUpdate × List HashAndHeight) :=
  let new_blocks := accBlocks.reverse
  let chain := chain1 ++ new_blocks.map
    (fun b => { hash := b.header.hash, height := b.header.number : HashAndHeight })
  match chain.head? with
  | none => none
  | some c0 =>
    match (if c0.height < finalized then
             match chain.get? (finalized - c0.height) with
             | none => none
             | some fh => some (some fh)
           else some none : Option (Option HashAndHeight)) with
    | none => none
    | some fhOpt =>
      match (match fhOpt with
             | some fh =>
               if c0.height ≤ fh.height then
                 if fh.height - c0.height ≤ chain.length then
                   some (chain.drop (fh.height - c0.height))
                 else none
               else some chain
             | none => some chain : Option (List HashAndHeight)) with
      | none => none
      | some chain2 =>
        match (match new_blocks with
               | [] => chain2.getLast?
               | b :: _ =>
                 some { hash := b.header.parent_hash,
                        height := b.header.number - 1 } :
               Option HashAndHeight) with
        | none => none
        | some bHead =>
          match chain2.head? with
          | none => none
          | some fh0 =>
            some ({ blocks := new_blocks, base_head := bHead,
                    finalized_head := fh0 }, chain2)

/-- Rust `ForkNavigator::move(best, finalized)` (src/ds_rpc.rs:743-821) over the
navigator's chain state, returning the `HotUpdate` and the updated chain. -/
def navMove (g : BlockId → Option DsBlock) (fuel : Nat)
    (chain0 : List HashAndHeight) (best finalized : Nat) :
    Option (HotUpdate × List HashAndHeight) :=
  match chain0.getLast? with
  | none => none
  | some tip =>
    if tip.height < best then
      match g (.number best) with
      | none => none
      | some b =>
        if b.header.number = 0 then none
        else
          match navWalkDown g tip.height fuel
              { hash := b.header.parent_hash, height := b.header.number - 1 }
              [b] with
          | none => none
          | some (bh1, acc1) =>
            match navUnwind g fuel chain0 bh1 acc1 with
            | none => none
            | some (chain1, acc2) => navFinish chain1 acc2 finalized
    else navFinish chain0 [] finalized

/-- Rust `ForkNavigator::new(state, ...)` (src/ds_rpc.rs:729-734): the chain
starts as the single seeded element. -/
def navNew (state : HashAndHeight) : List HashAndHeight := [state]

/-- An oracle block reachable through some identifier. -/
def InOracle (g : BlockId → Option DsBlock) (b : DsBlock) : Prop :=
  ∃ id, g id = some b

/-- Coherence of the `get_block` oracle with a real chain: a fetch by number
returns a block of that number, and the parent of any fetchable block sits
one height below it. -/
structure NavCoherent (g : BlockId → Option DsBlock) : Prop where
  byNumber : ∀ n b, g (.number n) = some b → b.header.number = n
  parentLink : ∀ b, InOracle g b →
    ∀ p, g (.hash b.header.parent_hash) = some p →
      p.header.number + 1 = b.header.number

/-- Contiguity of a chain suffix: each element sits one height above its
predecessor. -/
def Contig (c : List HashAndHeight) : Prop :=
  List.Chain' (fun x y => y.height = x.height + 1) c

/-- Rust `bh` correctly records the height of the block its hash denotes. -/
def HeadOk (g : BlockId → Option DsBlock) (bh : HashAndHeight) : Prop :=
  ∀ p, g (.hash bh.hash) = some p → p.header.number = bh.height

/-- The accumulated `new_blocks` have strictly descending consecutive
numbers ending just above `bh.height`. -/
def DescTo (acc : List DsBlock) (bh : HashAndHeight) : Prop :=
  acc.map (fun b => b.header.number) =
    (List.range' (bh.height + 1) acc.length).reverse

/-- The navigator chains reachable by successful `move` calls against
coherent oracles, from a freshly seeded navigator. -/
inductive NavReachable : List HashAndHeight → Prop where
  | init (st : HashAndHeight) : NavReachable (navNew st)
  | step {c c' : List HashAndHeight} {u : HotUpdate}
      (g : BlockId → Option DsBlock) (fuel best finalized : Nat) :
      NavReachable c → NavCoherent g →
      navMove g fuel c best finalized = some (u, c') → NavReachable c'

/-- A concrete fetched block for the navigator witness: block 101 with hash
`0xb` on parent `0xa`. -/
def testBlockBHeader : DsBlockHeader :=
  { number := 101, hash := "0xb", parent_hash := "0xa", size := 0,
    sha3_uncles := "", miner := "", state_root := "", transactions_root := "",
    receipts_root := "", logs_bloom := "", difficulty := "",
    total_difficulty := "", gas_limit := "", gas_used := "", timestamp := 0,
    extra_data := "", mix_hash := "", nonce := "", base_fee_per_gas := none }

def testBlockB : DsBlock :=
  { header := testBlockBHeader, logs := [], transactions := [], traces := [] }

/-- A concrete oracle serving only block 101 by number. -/
def testOracle : BlockId → Option DsBlock := fun id =>
  match id with
  | .number 101 => some testBlockB
  | _ => none

/-- The update produced by `move(101, 100)` from `[("0xa", 100)]`. -/
def testUpdate : HotUpdate :=
  { blocks := [testBlockB],
    base_head := { hash := "0xa", height := 100 },
    finalized_head := { hash := "0xa", height := 100 } }

/-- The chain after `move(101, 100)` from `[("0xa", 100)]`. -/
def testChain2 : List HashAndHeight :=
  [{ hash := "0xa", height := 100 }, { hash := "0xb", height := 101 }]

/-! ## Hot-block retry loop (src/ds_rpc.rs:648-677) -/

/-- The outcome of one `nav.move(...)` call as the retry loop observes it:
success, an error whose `downcast::<&str>()` succeeds (as it does for the
`anyhow!("consistency error")` literal), or any other error (the downcast
fails and hands the error back). -/
inductive MoveOutcome where
  | ok (update : HotUpdate)
  | errStr (msg : String)
  | errOther
deriving DecidableEq, Repr

/-- What one iteration of the retry `loop` decides. -/
inductive RetryStep where
  | done (update : HotUpdate)
  | propagate
  | again (retries : Nat) (sleepMs : Option Nat)
deriving DecidableEq, Repr

/-- One iteration of the retry `loop` in `get_hot_blocks`
(src/ds_rpc.rs:650-667).  `Ok` breaks with the update; an error that fails
to downcast to `&str` is propagated (`Err(err)?`); a `&str` error equal to
"consistency error" with fewer than 10 retries sleeps `200 ms * retries`
(after the increment) and retries.  Any other `&str` error — including
"consistency error" once the budget is spent — falls through the `if` guard
to the bottom of the loop body, so the loop runs again with no sleep and no
state change. -/
def retryStep (res : MoveOutcome) (retries : Nat) : RetryStep :=
  match res with
  | .ok u => .done u
  | .errStr msg =>
    if msg = "consistency error" ∧ retries < 10 then
      .again (retries + 1) (some (200 * (retries + 1)))
    else
      .again retries none
  | .errOther => .propagate

/-- The retry loop run against the successive outcomes of the `nav.move`
calls: `some (some u)` when it breaks with an update, `some none` when an
error propagates (terminating the stream), and `none` when the loop is still
running after consuming every listed outcome. -/
def runRetryLoop : List MoveOutcome → Nat → Option (Option HotUpdate)
  | [], _ => none
  | res :: rest, retries =>
    match retryStep res retries with
    | .done u => some (some u)
    | .propagate => some none
    | .again r _ => runRetryLoop rest r

/-! ## Hex codec (prefix_hex / from_str_radix, as used by src/firehose.rs) -/

/-- The value of one hex digit (both cases), `none` otherwise. -/
def hexDigitVal (c : Char) : Option Nat :=
  if 48 ≤ c.toNat ∧ c.toNat ≤ 57 then some (c.toNat - 48)
  else if 97 ≤ c.toNat ∧ c.toNat ≤ 102 then some (c.toNat - 87)
  else if 65 ≤ c.toNat ∧ c.toNat ≤ 70 then some (c.toNat - 55)
  else none

/-- An even run of hex digits decoded to bytes. -/
def hexPairsToBytes : List Char → Option (List Nat)
  | [] => some []
  | [_] => none
  | c1 :: c2 :: rest =>
    match hexDigitVal c1, hexDigitVal c2, hexPairsToBytes rest with
    | some hi, some lo, some bs => some ((16 * hi + lo) :: bs)
    | _, _, _ => none

/-- Rust `prefix_hex::decode::<Vec<u8>>`: requires the `0x` marker and an even
number of hex digits. -/
def decodeHex0x (s : String) : Option (List Nat) :=
  match s.data with
  | '0' :: 'x' :: rest => hexPairsToBytes rest
  | _ => none

/-- Rust `vec_from_hex` (src/firehose.rs:25-34): odd-length input is re-decoded
as `"0x0" ++ value[2..]`; the byte slice panics (`none`) when the value is
shorter than two characters. -/
def vec_from_hex (value : String) : Option (List Nat) :=
  if value.data.length % 2 ≠ 0 then
    match value.data with
    | _ :: _ :: rest => decodeHex0x (String.mk ('0' :: 'x' :: '0' :: rest))
    | _ => none
  else decodeHex0x value

/-- Rust `str::trim_start_matches("0x")`: strip every leading `0x`. -/
def trimStart0x : List Char → List Char
  | '0' :: 'x' :: rest => trimStart0x rest
  | l => l

/-- Rust `u64::from_str_radix(s, 16)`: optional `'+'`, one or more hex digits,
overflow checked at `2^64`. -/
def parseHexU64 (cs : List Char) : Option Nat :=
  let ds := if cs.head? = some '+' then cs.tail else cs
  if ds.isEmpty then none
  else
    match ds.foldl (fun acc c =>
        match acc, hexDigitVal c with
        | some v, some d => some (v * 16 + d)
        | _, _ => none) (some 0) with
    | none => none
    | some v => if v < 2 ^ 64 then some v else none

/-! ## Canonical → wire transaction encoder (src/firehose.rs:259-380)

The wire records mirror the `pbcodec` fields that the encoder sets from its
input; `repeated` fields the encoder always leaves empty
(`access_list`, `storage_changes`, `balance_changes`, `nonce_changes`,
`logs`, `code_changes`, `gas_changes`, `account_creations`,
`keccak_preimages`) are omitted, as no claim mentions them.
-/

/-- Rust `pbcodec::BigInt`. -/
structure WireBigInt where
  bytes : List Nat
deriving DecidableEq, Repr

/-- Rust `pbcodec::Log` as built at src/firehose.rs:261-268. -/
structure WireLog where
  address : List Nat
  data : List Nat
  block_index : Nat
  topics : List (List Nat)
  index : Nat
  ordinal : Nat
deriving DecidableEq, Repr

/-- Rust `pbcodec::Call` as built at src/firehose.rs:315-343. -/
structure WireCall where
  index : Nat
  parent_index : Nat
  depth : Nat
  call_type : Nat
  caller : List Nat
  address : List Nat
  value : Option WireBigInt
  gas_limit : Nat
  gas_consumed : Nat
  return_data : List Nat
  input : List Nat
  executed_code : Bool
  suicide : Bool
  status_failed : Bool
  status_reverted : Bool
  failure_reason : String
  state_reverted : Bool
  begin_ordinal : Nat
  end_ordinal : Nat
deriving DecidableEq, Repr

/-- Rust `pbcodec::TransactionReceipt` as built at src/firehose.rs:370-375. -/
structure WireReceipt where
  state_root : List Nat
  cumulative_gas_used : Nat
  logs_bloom : List Nat
  logs : List WireLog
deriving DecidableEq, Repr

/-- Rust `pbcodec::TransactionTrace` as built at src/firehose.rs:345-377. -/
structure WireTransactionTrace where
  «to» : List Nat
  nonce : Nat
  gas_price : Option WireBigInt
  gas_limit : Nat
  gas_used : Nat
  value : Option WireBigInt
  input : List Nat
  v : List Nat
  r : List Nat
  s : List Nat
  r_type : Int
  max_fee_per_gas : Option WireBigInt
  max_priority_fee_per_gas : Option WireBigInt
  index : Nat
  hash : List Nat
  «from» : List Nat
  return_data : List Nat
  public_key : List Nat
  begin_ordinal : Nat
  end_ordinal : Nat
  status : Int
  receipt : Option WireReceipt
  calls : List WireCall
deriving DecidableEq, Repr

/-- Lift an `Option` produced by a fallible conversion to `Except`, the
`none` case being the corresponding Rust `unwrap` panic. -/
def orPanic {α : Type} (o : Option α) (msg : String) : Except String α :=
  match o with
  | some a => .ok a
  | none => .error msg

/-- The per-log map of src/firehose.rs:261-268. -/
def encodeLog (log : ArchLog) : Except String WireLog := do
  let address ← orPanic (decodeHex0x log.address) "unwrap: log address hex"
  let data ← orPanic (decodeHex0x log.data) "unwrap: log data hex"
  let topics ← log.topics.mapM
    (fun t => orPanic (decodeHex0x t) "unwrap: topic hex")
  .ok { address := address, data := data, block_index := log.log_index,
        topics := topics, index := log.transaction_index, ordinal := 0 }

/-- The shared tail of both arms of the trace conversion
(src/firehose.rs:315-343): hex/uint conversions and the `pbcodec::Call`
literal, including the failure and revert bits. -/
def mkWireCall (call_type : Nat)
    (caller address value gas gas_used output input : String)
    (trace : ArchTrace) : Except String WireCall := do
  let callerB ← orPanic (vec_from_hex caller) "unwrap: caller hex"
  let addressB ← orPanic (vec_from_hex address) "unwrap: address hex"
  let valueB ← orPanic (vec_from_hex value) "unwrap: value hex"
  let gasN ← orPanic (parseU64 gas.data) "unwrap: gas parse"
  let gasUsedN ← orPanic (parseU64 gas_used.data) "unwrap: gas_used parse"
  let outB ← orPanic (vec_from_hex output) "unwrap: output hex"
  let inB ← orPanic (vec_from_hex input) "unwrap: input hex"
  .ok { index := 0, parent_index := 0, depth := 0, call_type := call_type,
        caller := callerB, address := addressB, value := some ⟨valueB⟩,
        gas_limit := gasN, gas_consumed := gasUsedN, return_data := outB,
        input := inB, executed_code := false, suicide := false,
        status_failed := trace.error.isSome || trace.revert_reason.isSome,
        status_reverted := trace.revert_reason.isSome,
        failure_reason :=
          trace.error.getD (trace.revert_reason.getD ""),
        state_reverted := false, begin_ordinal := 0, end_ordinal := 0 }

/-- The `filter_map` closure over a transaction's traces
(src/firehose.rs:269-344): `Suicide`/`Reward` are skipped (`ok none`), the
`unwrap`s of the per-kind fields are panics (`error`). -/
def encodeCall (trace : ArchTrace) : Except String (Option WireCall) :=
  match trace.r_type with
  | .Suicide | .Reward => .ok none
  | .Create => do
    let caller ← orPanic trace.create_from "unwrap: create_from"
    let address ← orPanic trace.create_result_address
      "unwrap: create_result_address"
    let value ← orPanic trace.create_value "unwrap: create_value"
    let gas ← orPanic trace.create_gas "unwrap: create_gas"
    let gas_used ← orPanic trace.create_result_gas_used
      "unwrap: create_result_gas_used"
    let c ← mkWireCall 5 caller address value gas gas_used "0x" "0x" trace
    .ok (some c)
  | .Call => do
    let ct ← orPanic trace.call_type "unwrap: call_type"
    let call_type : Nat :=
      match ct with
      | .Call => 1
      | .Callcode => 2
      | .Delegatecall => 3
      | .Staticcall => 4
    let caller ← orPanic trace.call_from "unwrap: call_from"
    let address ← orPanic trace.call_to "unwrap: call_to"
    let value ← orPanic trace.call_value "unwrap: call_value"
    let gas ← orPanic trace.call_gas "unwrap: call_gas"
    let gas_used ← orPanic trace.call_result_gas_used
      "unwrap: call_result_gas_used"
    let output ← orPanic trace.call_result_output
      "unwrap: call_result_output"
    let input ← orPanic trace.call_input "unwrap: call_input"
    let c ← mkWireCall call_type caller address value gas gas_used output
      input trace
    .ok (some c)

/-- The `filter_map(...).collect()` over a transaction's traces. -/
def collectCalls : List ArchTrace → Except String (List WireCall)
  | [] => .ok []
  | t :: rest => do
    let c? ← encodeCall t
    let tail ← collectCalls rest
    match c? with
    | none => .ok tail
    | some c => .ok (c :: tail)

/-- The optional big-int fields (src/firehose.rs:358-361):
`opt.and_then(|val| Some(BigInt { bytes: vec_from_hex(&val).unwrap() }))`. -/
def encodeOptBigInt (o : Option String) (msg : String) :
    Except String (Option WireBigInt) :=
  match o with
  | none => .ok none
  | some x =>
    match vec_from_hex x with
    | none => .error msg
    | some b => .ok (some ⟨b⟩)

/-- The per-transaction map of src/firehose.rs:260-378, given the logs and
traces grouped to this transaction's index: builds the wire
`TransactionTrace`.  The receipt's `logs_bloom` is the decoded all-zero
512-nibble literal of line 373, i.e. 256 zero bytes. -/
def encodeTransaction (tx : ArchTransaction) (logs : List ArchLog)
    (traces : List ArchTrace) : Except String WireTransactionTrace := do
  let wlogs ← logs.mapM encodeLog
  let calls ← collectCalls traces
  let toB ← orPanic (decodeHex0x (tx.«to».getD "0x")) "unwrap: to hex"
  let gasPriceB ← orPanic (vec_from_hex tx.gas_price)
    "unwrap: gas_price hex"
  let gasLimitN ← orPanic (parseHexU64 (trimStart0x tx.gas.data))
    "unwrap: gas radix"
  let gasUsedN ← orPanic (parseHexU64 (trimStart0x tx.gas_used.data))
    "unwrap: gas_used radix"
  let valueB ← orPanic (vec_from_hex tx.value) "unwrap: value hex"
  let inputB ← orPanic (decodeHex0x tx.input) "unwrap: input hex"
  let vB ← orPanic (vec_from_hex tx.v) "unwrap: v hex"
  let rB ← orPanic (vec_from_hex tx.r) "unwrap: r hex"
  let sB ← orPanic (vec_from_hex tx.s) "unwrap: s hex"
  let maxFee ← encodeOptBigInt tx.max_fee_per_gas
    "unwrap: max_fee_per_gas hex"
  let maxPrio ← encodeOptBigInt tx.max_priority_fee_per_gas
    "unwrap: max_priority_fee_per_gas hex"
  let hashB ← orPanic (decodeHex0x tx.hash) "unwrap: hash hex"
  let fromB ← orPanic (decodeHex0x tx.«from») "unwrap: from hex"
  let cumGasN ← orPanic
    (parseHexU64 (trimStart0x tx.cumulative_gas_used.data))
    "unwrap: cumulative_gas_used radix"
  let receipt : WireReceipt :=
    { state_root := [], cumulative_gas_used := cumGasN,
      logs_bloom := List.replicate 256 0, logs := wlogs }
  .ok { «to» := toB, nonce := tx.nonce, gas_price := some ⟨gasPriceB⟩,
        gas_limit := gasLimitN, gas_used := gasUsedN,
        value := some ⟨valueB⟩, input := inputB, v := vB, r := rB, s := sB,
        r_type := tx.r_type, max_fee_per_gas := maxFee,
        max_priority_fee_per_gas := maxPrio, index := tx.transaction_index,
        hash := hashB, «from» := fromB, return_data := [], public_key := [],
        begin_ordinal := 0, end_ordinal := 0, status := tx.status,
        receipt := some receipt, calls := calls }

/-- A reverted call trace: a plain `CALL` whose `revert_reason` is set. -/
def cexTrace : ArchTrace :=
  { transaction_index := 0, r_type := .Call, call_type := some .Call,
    error := none, revert_reason := some "execution reverted",
    create_from := none, call_from := some "0xaa",
    create_result_address := none, call_to := some "0xbb",
    create_value := none, call_value := some "0x01",
    create_gas := none, call_gas := some "5",
    create_result_gas_used := none, call_result_gas_used := some "6",
    call_result_output := some "0x", call_input := some "0x" }

/-- A transaction whose archive-provided status is `Succeeded(1)`. -/
def cexTx : ArchTransaction :=
  { transaction_index := 0, hash := "0x12", nonce := 0, «from» := "0x34",
    «to» := some "0x56", input := "0x", value := "0x00", gas := "0x1",
    gas_price := "0x01", max_fee_per_gas := none,
    max_priority_fee_per_gas := none, v := "0x00", r := "0x00", s := "0x00",
    y_parity := none, gas_used := "0x1", cumulative_gas_used := "0x1",
    effective_gas_price := "0x0", r_type := 2, status := 1 }

/-! ## Theorems -/

theorem natDigitsGo_fuel {f g n : Nat} (hf : n ≤ f) (hg : n ≤ g) :
    natDigitsGo f n = natDigitsGo g n := by
  induction f generalizing g n with
  | zero =>
    have : n = 0 := Nat.le_zero.mp hf
    subst this
    cases g with
    | zero => rfl
    | succ g => simp [natDigitsGo]
  | succ f ih =>
    cases g with
    | zero =>
      have : n = 0 := Nat.le_zero.mp hg
      subst this
      simp [natDigitsGo]
    | succ g =>
      simp only [natDigitsGo]
      split
      · rfl
      · next h =>
        have hd : n / 10 < n := Nat.div_lt_self (by omega) (by omega)
        rw [ih (by omega) (g := g) (by omega)]

/-- The recursion `natDigits` actually satisfies (the shape of the division
loop in Rust's `u64: Display`). -/
theorem natDigits_eq (n : Nat) :
    natDigits n =
      if n < 10 then [digitChar10 n]
      else natDigits (n / 10) ++ [digitChar10 (n % 10)] := by
  show natDigitsGo n n = _
  cases n with
  | zero => simp [natDigitsGo]
  | succ m =>
    simp only [natDigitsGo]
    split
    · rfl
    · next h =>
      have hd : (m + 1) / 10 < m + 1 := Nat.div_lt_self (by omega) (by omega)
      rw [natDigitsGo_fuel (f := m) (g := (m + 1) / 10) (by omega) (by omega)]
      rfl

/-! ### Lemmas about the decimal codec -/

theorem digitChar10_toNat {d : Nat} (h : d < 10) :
    (digitChar10 d).toNat = 48 + d := by
  interval_cases d <;> rfl

theorem digitChar10_isDigit {d : Nat} (h : d < 10) :
    isDigit10 (digitChar10 d) = true := by
  interval_cases d <;> rfl

theorem digitChar10_ne_sep {d : Nat} (h : d < 10) : digitChar10 d ≠ ':' := by
  interval_cases d <;> decide

theorem digitChar10_ne_plus {d : Nat} (h : d < 10) : digitChar10 d ≠ '+' := by
  interval_cases d <;> decide

theorem natDigits_ne_nil (n : Nat) : natDigits n ≠ [] := by
  rw [natDigits_eq]
  split
  · simp
  · simp

theorem natDigits_all_digits (n : Nat) : ∀ c ∈ natDigits n, isDigit10 c = true := by
  induction n using Nat.strong_induction_on with
  | _ n ih =>
    rw [natDigits_eq]
    split
    · next h =>
      intro c hc
      simp only [List.mem_singleton] at hc
      subst hc
      exact digitChar10_isDigit h
    · next h =>
      intro c hc
      rcases List.mem_append.mp hc with hc | hc
      · exact ih (n / 10) (Nat.div_lt_self (by omega) (by omega)) c hc
      · simp only [List.mem_singleton] at hc
        subst hc
        exact digitChar10_isDigit (Nat.mod_lt _ (by omega))

theorem natDigits_not_sep (n : Nat) : ':' ∉ natDigits n := by
  intro hmem
  have := natDigits_all_digits n ':' hmem
  simp [isDigit10] at this

theorem decValFrom_append (a : Nat) (xs ys : List Char) :
    decValFrom a (xs ++ ys) = decValFrom (decValFrom a xs) ys := by
  simp [decValFrom, List.foldl_append]

theorem decValFrom_singleton (a : Nat) (c : Char) :
    decValFrom a [c] = a * 10 + (c.toNat - 48) := rfl

theorem decValFrom_natDigits (a n : Nat) :
    decValFrom a (natDigits n) = a * 10 ^ (natDigits n).length + n := by
  induction n using Nat.strong_induction_on generalizing a with
  | _ n ih =>
    rw [natDigits_eq]
    split
    · next h =>
      simp only [decValFrom_singleton, digitChar10_toNat h, List.length_singleton,
        pow_one]
      omega
    · next h =>
      rw [decValFrom_append, ih (n / 10) (Nat.div_lt_self (by omega) (by omega))]
      have hm : n % 10 < 10 := Nat.mod_lt _ (by omega)
      rw [decValFrom_singleton, digitChar10_toNat hm, List.length_append,
        List.length_singleton, Nat.pow_succ]
      have hdm : n / 10 * 10 + n % 10 = n := by omega
      have h48 : 48 + n % 10 - 48 = n % 10 := by omega
      rw [h48]
      calc (a * 10 ^ (natDigits (n / 10)).length + n / 10) * 10 + n % 10
          = a * (10 ^ (natDigits (n / 10)).length * 10) + (n / 10 * 10 + n % 10) := by
            ring
        _ = a * (10 ^ (natDigits (n / 10)).length * 10) + n := by rw [hdm]

theorem decValFrom_natDigits_zero (n : Nat) : decValFrom 0 (natDigits n) = n := by
  rw [decValFrom_natDigits]; simp

theorem parseU64_natDigits {n : Nat} (h : n < 2 ^ 64) :
    parseU64 (natDigits n) = some n := by
  have hne := natDigits_ne_nil n
  have hall := natDigits_all_digits n
  unfold parseU64
  have hhead : (natDigits n).head? ≠ some '+' := by
    cases hd : natDigits n with
    | nil => simp
    | cons c rest =>
      have hc : isDigit10 c = true := hall c (by rw [hd]; exact List.mem_cons_self _ _)
      simp only [List.head?]
      intro hplus
      have : c = '+' := by injection hplus
      subst this
      simp [isDigit10] at hc
  rw [if_neg hhead]
  rw [if_neg (by simpa [List.isEmpty_iff] using hne)]
  rw [if_pos (by rw [List.all_eq_true]; exact hall)]
  simp only [decValFrom_natDigits_zero]
  rw [if_pos h]

theorem splitOnSep_no_sep {sep : Char} {cs : List Char} (h : sep ∉ cs) :
    splitOnSep sep cs = [cs] := by
  induction cs with
  | nil => rfl
  | cons c rest ih =>
    have hc : c ≠ sep := fun he => h (he ▸ List.mem_cons_self _ _)
    have hrest : sep ∉ rest := fun hm => h (List.mem_cons_of_mem _ hm)
    simp only [splitOnSep, if_neg hc, ih hrest]

theorem splitOnSep_sep_append {sep : Char} {a rest : List Char} (h : sep ∉ a) :
    splitOnSep sep (a ++ sep :: rest) = a :: splitOnSep sep rest := by
  induction a with
  | nil =>
    simp [splitOnSep]
  | cons c tl ih =>
    have hc : c ≠ sep := fun he => h (he ▸ List.mem_cons_self _ _)
    have htl : sep ∉ tl := fun hm => h (List.mem_cons_of_mem _ hm)
    simp only [List.cons_append, splitOnSep, if_neg hc, ih htl]
    cases hs : splitOnSep sep (tl ++ sep :: rest) with
    | nil =>
      exfalso
      rw [ih htl] at hs
      exact List.noConfusion hs
    | cons f fs =>
      rw [ih htl] at hs
      injection hs with h1 h2
      subst h1; subst h2
      rfl

/-! ### C1: cursor round-trip -/

/-- The four fields of a rendered cursor, as `splitOnSep` recovers them. -/
theorem cursor_toStr_split (c : Cursor)
    (hh1 : ':' ∉ c.block.hash.data) (hh2 : ':' ∉ c.finalized.hash.data) :
    splitOnSep ':' (Cursor.toStr c).data =
      [natDigits c.block.height, c.block.hash.data,
       natDigits c.finalized.height, c.finalized.hash.data] := by
  show splitOnSep ':' (natDigits c.block.height ++ ':' :: c.block.hash.data ++
    ':' :: natDigits c.finalized.height ++ ':' :: c.finalized.hash.data) = _
  simp only [List.append_assoc, List.cons_append]
  rw [splitOnSep_sep_append (natDigits_not_sep _)]
  rw [splitOnSep_sep_append hh1]
  rw [splitOnSep_sep_append (natDigits_not_sep _)]
  rw [splitOnSep_no_sep hh2]

/-- C1 (amended): parsing the rendered form of a cursor returns the cursor,
provided the heights fit in 64 bits (they are `u64` in the source) and
neither hash contains the `':'` separator. -/
theorem cursor_roundtrip (c : Cursor)
    (h1 : c.block.height < 2 ^ 64) (h2 : c.finalized.height < 2 ^ 64)
    (hh1 : ':' ∉ c.block.hash.data) (hh2 : ':' ∉ c.finalized.hash.data) :
    Cursor.tryFrom (Cursor.toStr c) = .ok c := by
  unfold Cursor.tryFrom
  rw [cursor_toStr_split c hh1 hh2]
  simp only [parseU64_natDigits h1, parseU64_natDigits h2]

/-- C1 witness: the round-trip at the concrete cursor used by the repository's
own unit test (`0:hash0:1:hash1`). -/
theorem cursor_roundtrip_witness :
    Cursor.tryFrom (Cursor.toStr
      { block := { hash := "hash0", height := 0 },
        finalized := { hash := "hash1", height := 1 } }) =
      .ok { block := { hash := "hash0", height := 0 },
            finalized := { hash := "hash1", height := 1 } } :=
  cursor_roundtrip _ (by decide) (by decide) (by decide) (by decide)

/-- C1 counterexample: a hash containing the separator breaks the round-trip.
For `block.hash = "a:b"` the rendered cursor `"0:a:b:1:h"` has five fields,
so parsing fails instead of returning the original cursor. -/
theorem cursor_roundtrip_counterexample :
    Cursor.tryFrom (Cursor.toStr
      { block := { hash := "a:b", height := 0 },
        finalized := { hash := "h", height := 1 } }) = .error "invalid cursor" ∧
    ∀ c : Cursor,
      (Except.error "invalid cursor" : Except String Cursor) ≠ Except.ok c := by
  constructor
  · show Cursor.tryFrom (String.mk (natDigits 0 ++ ':' :: "a:b".data ++
      ':' :: natDigits 1 ++ ':' :: "h".data)) = .error "invalid cursor"
    rfl
  · intro c h
    exact Except.noConfusion h

/-! ### C4: stop bound -/

/-- C4 counterexample: with resolved start 0 and `stop_block_num = 0` the
code produces the bound `Some(0)`, not the unbounded `None` the claim
requires for every zero `stop_block_num`. -/
theorem toBlock_zero_counterexample :
    toBlockOf 0 0 = some 0 ∧ toBlockOf 0 0 ≠ none := by
  refine ⟨rfl, ?_⟩
  decide

/-- C4 (amended): the stop bound is `None` exactly when `stop_block_num` is
zero and the resolved start block is non-zero; otherwise it is
`Some(stop_block_num)` — in particular `Some(0)` when both are zero. -/
theorem toBlock_characterization (f s : Nat) :
    toBlockOf f s = if s = 0 ∧ f ≠ 0 then none else some s := by
  by_cases hf : f = 0 <;> by_cases hs : s = 0 <;>
    simp [toBlockOf, hf, hs]

/-! ### C3: block-number resolution for the unary fetch -/

/-- Rust `u64::from_str` fails on any list that starts with a digit but contains
a non-digit such as `':'`. -/
theorem parseU64_none_of_sep {cs : List Char}
    (hd : ∃ d rest, cs = d :: rest ∧ isDigit10 d = true) (hmem : ':' ∈ cs) :
    parseU64 cs = none := by
  obtain ⟨d, rest, rfl, hdig⟩ := hd
  have hplus : d ≠ '+' := by
    intro h
    subst h
    simp [isDigit10] at hdig
  have hall : ¬((d :: rest).all isDigit10 = true) := by
    intro hall
    have := List.all_eq_true.mp hall ':' hmem
    simp [isDigit10] at this
  unfold parseU64
  simp only [List.head?_cons, Option.some.injEq]
  rw [if_neg hplus]
  rw [if_neg (by simp : ¬((d :: rest).isEmpty = true))]
  rw [if_neg hall]

/-- C3 counterexample: for the four-field cursor string `"5:h:6:h2"`,
`Cursor::try_from` yields block height 5 (what the claim says the fetch
uses), but the fetch's actual resolution `cursor.parse::<u64>()` panics
(`none`). -/
theorem resolveBlockNum_cursor_counterexample :
    Cursor.tryFrom "5:h:6:h2" =
      .ok { block := { hash := "h", height := 5 },
            finalized := { hash := "h2", height := 6 } } ∧
    resolveBlockNum (.cursor "5:h:6:h2") = none := by
  exact ⟨rfl, rfl⟩

/-- C3 (amended): a `BlockHashAndNumber` reference resolves to its `num`
component, but a `Cursor` reference is resolved by parsing the whole cursor
string as a base-10 `u64`: every four-field `H:Hh:F:Fh` cursor fails to
parse (panic), while a bare decimal number resolves to itself. -/
theorem resolveBlockNum_spec :
    (∀ (h : String) (n : Nat),
      resolveBlockNum (.blockHashAndNumber h n) = some n) ∧
    (∀ c : Cursor, resolveBlockNum (.cursor (Cursor.toStr c)) = none) ∧
    (∀ n : Nat, n < 2 ^ 64 →
      resolveBlockNum (.cursor (String.mk (natDigits n))) = some n) := by
  refine ⟨fun h n => rfl, fun c => ?_, fun n hn => parseU64_natDigits hn⟩
  show parseU64 (Cursor.toStr c).data = none
  obtain ⟨d, rest, hdr⟩ := List.exists_cons_of_ne_nil
    (natDigits_ne_nil c.block.height)
  apply parseU64_none_of_sep
  · refine ⟨d, rest ++ ':' :: c.block.hash.data ++
      ':' :: natDigits c.finalized.height ++ ':' :: c.finalized.hash.data, ?_, ?_⟩
    · show natDigits c.block.height ++ ':' :: c.block.hash.data ++
        ':' :: natDigits c.finalized.height ++ ':' :: c.finalized.hash.data = _
      rw [hdr]
      simp [List.append_assoc]
    · exact natDigits_all_digits _ d (by rw [hdr]; exact List.mem_cons_self _ _)
  · show ':' ∈ natDigits c.block.height ++ ':' :: c.block.hash.data ++
      ':' :: natDigits c.finalized.height ++ ':' :: c.finalized.hash.data
    simp

/-- C3 witness: the amended resolution at concrete references. -/
theorem resolveBlockNum_witness :
    resolveBlockNum (.blockHashAndNumber "0xab" 7) = some 7 ∧
    resolveBlockNum (.cursor (Cursor.toStr
      { block := { hash := "h", height := 5 },
        finalized := { hash := "h2", height := 6 } })) = none ∧
    resolveBlockNum (.cursor (String.mk (natDigits 42))) = some 42 :=
  ⟨resolveBlockNum_spec.1 "0xab" 7,
   resolveBlockNum_spec.2.1 _,
   resolveBlockNum_spec.2.2 42 (by decide)⟩

/-! ### C2: the cursor carried by emitted responses -/

/-- C2 counterexample: the response emitted for the concrete block number 7
carries cursor `"7"`, which `Cursor::try_from` rejects — it does not parse
back into any `Cursor`, contradicting the claimed four-field format. -/
theorem firehoseResponse_cursor_counterexample :
    (firehoseBlockResponse testBlock).cursor = "7" ∧
    (Cursor.tryFrom (firehoseBlockResponse testBlock).cursor).isOk = false :=
  ⟨rfl, rfl⟩

/-- C2 (amended): every response emitted by `Firehose::blocks` has
`step = 1` and carries as cursor the base-10 rendering of the emitted
block's number — a single-field string that `Cursor::try_from` always
rejects with "invalid cursor". -/
theorem firehoseResponse_cursor_spec (b : ArchBlock) :
    (firehoseBlockResponse b).step = 1 ∧
    (firehoseBlockResponse b).cursor = String.mk (natDigits b.header.number) ∧
    Cursor.tryFrom (firehoseBlockResponse b).cursor = .error "invalid cursor" := by
  refine ⟨rfl, rfl, ?_⟩
  show Cursor.tryFrom (String.mk (natDigits b.header.number)) = _
  unfold Cursor.tryFrom
  rw [show (String.mk (natDigits b.header.number)).data =
    natDigits b.header.number from rfl]
  rw [splitOnSep_no_sep (natDigits_not_sep _)]

/-! ### C10: every emitted response is a `StepNew` -/

/-- C10: every response produced by the `Firehose::blocks` emission loop and
by `ArchiveStream::blocks` has `step = 1` (`StepNew`); no `StepUndo` (2) is
ever produced. -/
theorem step_always_new :
    (∀ (bs : List ArchBlock), ∀ r ∈ firehoseResponses bs, r.step = 1) ∧
    (∀ (rc : String) (b : ArchBlock), (archiveStreamResponse rc b).step = 1) := by
  constructor
  · intro bs r hr
    obtain ⟨b, _, rfl⟩ := List.mem_map.mp hr
    rfl
  · intro rc b
    rfl

/-- C10 witness: the emission for a concrete one-block batch has step 1. -/
theorem step_always_new_witness : (firehoseBlockResponse testBlock).step = 1 :=
  step_always_new.1 [testBlock] (firehoseBlockResponse testBlock)
    (List.mem_cons_self _ _)

theorem splitRangeGo_gt {fuel f t : Nat} (h : t < f) :
    splitRangeGo fuel f t = some [] := by
  cases fuel with
  | zero => simp [splitRangeGo, Nat.not_le.mpr h]
  | succ fuel => simp [splitRangeGo, Nat.not_le.mpr h]

theorem rangesCover_head {a b : Nat} {r : Nat × Nat} {l : List (Nat × Nat)}
    (h : RangesCover a b (r :: l)) : r.1 = a := by
  cases l with
  | nil => exact h.1
  | cons s rest => exact h.1

theorem splitRangeGo_covers :
    ∀ fuel f t, f ≤ t → t + 99 < 2 ^ 64 → t + 1 - f ≤ fuel →
      ∃ l, splitRangeGo fuel f t = some l ∧ RangesCover f t l ∧
        ∀ r ∈ l, r.1 ≤ r.2 ∧ r.2 < r.1 + 100 := by
  intro fuel
  induction fuel with
  | zero =>
    intro f t hft _ hfuel
    exact absurd hfuel (by omega)
  | succ fuel ih =>
    intro f t hft hbound hfuel
    have hov1 : f + 100 - 1 < 2 ^ 64 := by omega
    by_cases hsmall : t ≤ f + 100 - 1
    · have hmin : min (f + 100 - 1) t = t := Nat.min_eq_right hsmall
      refine ⟨[(f, t)], ?_, ⟨rfl, rfl⟩, ?_⟩
      · rw [splitRangeGo, if_pos hft, if_pos hov1, hmin,
          if_pos (by omega : t + 1 < 2 ^ 64),
          splitRangeGo_gt (by omega : t < t + 1)]
      · intro r hr
        simp only [List.mem_singleton] at hr
        subst hr
        exact ⟨hft, by omega⟩
    · have hmin : min (f + 100 - 1) t = f + 100 - 1 :=
        Nat.min_eq_left (by omega)
      have hnext : f + 100 - 1 + 1 ≤ t := by omega
      obtain ⟨lr, hlr, hcov, hwf⟩ :=
        ih (f + 100 - 1 + 1) t hnext hbound (by omega)
      refine ⟨(f, f + 100 - 1) :: lr, ?_, ?_, ?_⟩
      · rw [splitRangeGo, if_pos hft, if_pos hov1, hmin,
          if_pos (by omega : f + 100 - 1 + 1 < 2 ^ 64), hlr]
      · cases lr with
        | nil => exact (hcov : False).elim
        | cons s rest2 => exact ⟨rfl, by omega, hcov⟩
      · intro r hr
        rcases List.mem_cons.mp hr with hr | hr
        · subst hr
          exact ⟨by omega, by omega⟩
        · exact hwf r hr

theorem rangesCover_union :
    ∀ (l : List (Nat × Nat)) (a b : Nat), RangesCover a b l →
      (∀ r ∈ l, r.1 ≤ r.2) →
      ∀ x, (∃ r, r ∈ l ∧ r.1 ≤ x ∧ x ≤ r.2) ↔ (a ≤ x ∧ x ≤ b) := by
  intro l
  induction l with
  | nil => intro a b hcov; exact absurd hcov id
  | cons r tl ih =>
    intro a b hcov hwf x
    cases tl with
    | nil =>
      obtain ⟨h1, h2⟩ := hcov
      subst h1; subst h2
      constructor
      · rintro ⟨r2, hr2, hx1, hx2⟩
        rcases List.mem_singleton.mp hr2 with rfl
        exact ⟨hx1, hx2⟩
      · intro hx
        exact ⟨r, List.mem_singleton.mpr rfl, hx.1, hx.2⟩
    | cons s rest =>
      obtain ⟨h1, h2, hcov2⟩ := hcov
      subst h1
      have hwf2 : ∀ r2 ∈ s :: rest, r2.1 ≤ r2.2 := by
        intro r2 hr2
        exact hwf r2 (List.mem_cons_of_mem _ hr2)
      have hih := ih (r.2 + 1) b hcov2 hwf2
      have hs1 : s.1 = r.2 + 1 := rangesCover_head hcov2
      have hb : r.2 + 1 ≤ b := by
        have := (hih (r.2 + 1)).mp
          ⟨s, List.mem_cons_self _ _, by omega, by
            have := hwf2 s (List.mem_cons_self _ _)
            omega⟩
        exact this.2
      constructor
      · rintro ⟨r2, hr2, hx1, hx2⟩
        rcases List.mem_cons.mp hr2 with rfl | hr2
        · omega
        · have := (hih x).mp ⟨r2, hr2, hx1, hx2⟩
          omega
      · intro hx
        by_cases hxr : x ≤ r.2
        · exact ⟨r, List.mem_cons_self _ _, hx.1, hxr⟩
        · obtain ⟨r2, hr2, h3, h4⟩ := (hih x).mpr ⟨by omega, hx.2⟩
          exact ⟨r2, List.mem_cons_of_mem _ hr2, h3, h4⟩

/-- C9 counterexample: at `from = 2^64 - 50`, `to = 2^64 - 1` — a valid
`u64` pair with `from ≤ to` — the loop's very first `from + step - 1`
overflows `u64`, so `split_range` fails (panic/divergence) instead of
yielding a cover of `[from, to]`. -/
theorem split_range_overflow_counterexample :
    2 ^ 64 - 50 ≤ 2 ^ 64 - 1 ∧ 2 ^ 64 - 1 < 2 ^ 64 ∧
    split_range (2 ^ 64 - 50) (2 ^ 64 - 1) = none := by
  refine ⟨by decide, by decide, ?_⟩
  decide

/-- C9 (amended): for every `a ≤ b` with `b + 99 < 2^64` — away from the
`u64` boundary where the loop's arithmetic overflows — `split_range(a, b)`
succeeds and yields ranges that contiguously cover exactly `[a, b]` in
ascending order, each of size at most 100; and `split_range(1000, 1250)` is
the expected concrete list. -/
theorem split_range_spec :
    (∀ f t : Nat, f ≤ t → t + 99 < 2 ^ 64 →
      ∃ l, split_range f t = some l ∧ RangesCover f t l ∧
        (∀ r ∈ l, r.1 ≤ r.2 ∧ r.2 < r.1 + 100) ∧
        (∀ x, (∃ r, r ∈ l ∧ r.1 ≤ x ∧ x ≤ r.2) ↔ (f ≤ x ∧ x ≤ t))) ∧
    split_range 1000 1250 = some [(1000, 1099), (1100, 1199), (1200, 1250)] := by
  constructor
  · intro f t hft hbound
    obtain ⟨l, hl, hcov, hwf⟩ :=
      splitRangeGo_covers (t + 1 - f) f t hft hbound (by omega)
    refine ⟨l, ?_, hcov, hwf, ?_⟩
    · unfold split_range
      rw [if_pos hft]
      exact hl
    · exact rangesCover_union _ f t hcov (fun r hr => (hwf r hr).1)
  · rfl

/-- C9 witness: the general part of `split_range_spec` applied at the
concrete pair (1000, 1250), whose bound `1349 < 2^64` holds. -/
theorem split_range_spec_witness :
    ∃ l, split_range 1000 1250 = some l ∧ RangesCover 1000 1250 l ∧
      (∀ r ∈ l, r.1 ≤ r.2 ∧ r.2 < r.1 + 100) ∧
      (∀ x, (∃ r, r ∈ l ∧ r.1 ≤ x ∧ x ≤ r.2) ↔ (1000 ≤ x ∧ x ≤ 1250)) :=
  split_range_spec.1 1000 1250 (by omega) (by decide)

theorem contig_nil : Contig [] := List.chain'_nil

theorem contig_singleton (x : HashAndHeight) : Contig [x] :=
  List.chain'_singleton x

theorem Contig.tail {x : HashAndHeight} {tl : List HashAndHeight}
    (h : Contig (x :: tl)) : Contig tl :=
  List.Chain'.tail h

theorem contig_dropLast : ∀ {c : List HashAndHeight}, Contig c →
    Contig c.dropLast := by
  intro c h
  induction c with
  | nil => simpa using h
  | cons x tl ih =>
    cases tl with
    | nil => exact contig_nil
    | cons y tl2 =>
      have hxy : y.height = x.height + 1 := (List.chain'_cons.mp h).1
      have htl : Contig (y :: tl2) := (List.chain'_cons.mp h).2
      rw [List.dropLast_cons₂]
      cases tl2 with
      | nil => exact contig_singleton x
      | cons z tl3 =>
        rw [List.dropLast_cons₂]
        refine List.chain'_cons.mpr ⟨hxy, ?_⟩
        have := ih htl
        rwa [List.dropLast_cons₂] at this

theorem contig_drop : ∀ (n : Nat) {c : List HashAndHeight}, Contig c →
    Contig (c.drop n) := by
  intro n
  induction n with
  | zero => intro c h; simpa using h
  | succ n ih =>
    intro c h
    cases c with
    | nil => exact contig_nil
    | cons x tl =>
      rw [List.drop_succ_cons]
      exact ih (Contig.tail h)

theorem contig_head_le_last :
    ∀ {c : List HashAndHeight}, Contig c →
      ∀ {a z}, c.head? = some a → c.getLast? = some z → a.height ≤ z.height := by
  intro c
  induction c with
  | nil => intro _ a z ha; simp at ha
  | cons x tl ih =>
    intro h a z ha hz
    simp only [List.head?_cons, Option.some.injEq] at ha
    subst ha
    cases tl with
    | nil =>
      simp only [List.getLast?_singleton, Option.some.injEq] at hz
      subst hz
      exact Nat.le_refl _
    | cons y tl2 =>
      rw [List.getLast?_cons_cons] at hz
      have hxy : y.height = x.height + 1 := (List.chain'_cons.mp h).1
      have hyz : y.height ≤ z.height :=
        ih (List.chain'_cons.mp h).2 rfl hz
      omega

theorem contig_getLast_dropLast :
    ∀ {c : List HashAndHeight}, Contig c →
      ∀ {t t'}, c.getLast? = some t → c.dropLast.getLast? = some t' →
        t'.height + 1 = t.height := by
  intro c
  induction c with
  | nil => intro _ t t' ht; simp at ht
  | cons x tl ih =>
    intro h t t' ht ht'
    cases tl with
    | nil => simp at ht'
    | cons y tl2 =>
      have hxy : y.height = x.height + 1 := (List.chain'_cons.mp h).1
      have htl : Contig (y :: tl2) := (List.chain'_cons.mp h).2
      rw [List.getLast?_cons_cons] at ht
      rw [List.dropLast_cons₂] at ht'
      cases tl2 with
      | nil =>
        simp only [List.getLast?_singleton, Option.some.injEq] at ht
        simp only [List.dropLast_single, List.getLast?_singleton,
          Option.some.injEq] at ht'
        subst ht
        subst ht'
        omega
      | cons z tl3 =>
        rw [List.dropLast_cons₂] at ht'
        rw [List.getLast?_cons_cons] at ht'
        rw [← List.dropLast_cons₂] at ht'
        exact ih htl ht ht'

theorem contig_glue :
    ∀ {c d : List HashAndHeight}, Contig c → Contig d →
      (∀ t h0, c.getLast? = some t → d.head? = some h0 →
        h0.height = t.height + 1) →
      Contig (c ++ d) := by
  intro c d hc hd hglue
  rw [Contig, List.chain'_append]
  exact ⟨hc, hd, fun t ht h0 hh0 => hglue t h0 ht hh0⟩

theorem contig_of_heights_range' :
    ∀ (l : List HashAndHeight) (s : Nat),
      l.map (fun x => x.height) = List.range' s l.length → Contig l := by
  intro l
  induction l with
  | nil => intro s _; exact contig_nil
  | cons x tl ih =>
    intro s hmap
    rw [List.map_cons, List.length_cons, List.range'_succ s tl.length 1] at hmap
    injection hmap with hx htl
    refine List.chain'_cons'.mpr ⟨?_, ih (s + 1) htl⟩
    intro y hy
    cases tl with
    | nil => simp at hy
    | cons z tl2 =>
      simp only [List.head?_cons, Option.mem_def, Option.some.injEq] at hy
      subst hy
      rw [List.map_cons, List.length_cons, List.range'_succ (s + 1) tl2.length 1]
        at htl
      injection htl with hz _
      omega

theorem navCoherent_headOk {g : BlockId → Option DsBlock} (hg : NavCoherent g)
    {b : DsBlock} (hb : InOracle g b) (h1 : b.header.number ≠ 0) :
    HeadOk g { hash := b.header.parent_hash, height := b.header.number - 1 } := by
  intro p hp
  have h2 := hg.parentLink b hb p hp
  show p.header.number = b.header.number - 1
  omega

/-- Extending a descending accumulator with the block its head hash denotes. -/
theorem descTo_extend {acc : List DsBlock} {bh : HashAndHeight} {b : DsBlock}
    (hdesc : DescTo acc bh) (hnum : b.header.number = bh.height)
    (hpos : bh.height ≠ 0) :
    DescTo (acc ++ [b])
      { hash := b.header.parent_hash, height := b.header.number - 1 } := by
  unfold DescTo at hdesc ⊢
  rw [List.map_append, List.map_singleton, hdesc, List.length_append,
    List.length_singleton]
  show _ = (List.range' (b.header.number - 1 + 1) (acc.length + 1)).reverse
  have hx : b.header.number - 1 + 1 = bh.height := by omega
  rw [hx, List.range'_succ bh.height acc.length 1, List.reverse_cons]
  rw [hnum]

/-- What a successful first walk loop guarantees: the resulting `best_head`
sits exactly at the tip height, still correctly describes its block, and the
accumulator descends to it. -/
theorem navWalkDown_spec {g : BlockId → Option DsBlock} (hg : NavCoherent g)
    {tipH : Nat} :
    ∀ (fuel : Nat) (bh : HashAndHeight) (acc : List DsBlock)
      (bh' : HashAndHeight) (acc' : List DsBlock),
      HeadOk g bh → DescTo acc bh → tipH ≤ bh.height →
      navWalkDown g tipH fuel bh acc = some (bh', acc') →
      bh'.height = tipH ∧ HeadOk g bh' ∧ DescTo acc' bh' := by
  intro fuel
  induction fuel with
  | zero =>
    intro bh acc bh' acc' hok hdesc hle h
    rw [navWalkDown] at h
    split at h
    · exact absurd h (by simp)
    · next hlt =>
      injection h with h1
      injection h1 with h2 h3
      subst h2; subst h3
      exact ⟨by omega, hok, hdesc⟩
  | succ fuel ih =>
    intro bh acc bh' acc' hok hdesc hle h
    rw [navWalkDown] at h
    split at h
    · next hlt =>
      split at h
      · exact absurd h (by simp)
      · next b hfetch =>
        have hnum : b.header.number = bh.height := hok b hfetch
        have hnz : ¬ b.header.number = 0 := by omega
        rw [if_neg hnz] at h
        have hok2 : HeadOk g
            { hash := b.header.parent_hash, height := b.header.number - 1 } :=
          navCoherent_headOk hg ⟨.hash bh.hash, hfetch⟩ hnz
        have hdesc2 := descTo_extend hdesc hnum (by omega)
        have hle2 : tipH ≤ b.header.number - 1 := by omega
        exact ih _ _ _ _ hok2 hdesc2 hle2 h
    · next hlt =>
      injection h with h1
      injection h1 with h2 h3
      subst h2; subst h3
      exact ⟨by omega, hok, hdesc⟩

/-- What a successful unwind loop guarantees: the surviving chain is still
contiguous, non-empty, and the accumulator descends to exactly one above its
tip. -/
theorem navUnwind_spec {g : BlockId → Option DsBlock} (hg : NavCoherent g) :
    ∀ (fuel : Nat) (chain : List HashAndHeight) (bh : HashAndHeight)
      (acc : List DsBlock) (chain' : List HashAndHeight) (acc' : List DsBlock),
      Contig chain → HeadOk g bh → DescTo acc bh →
      (∀ t, chain.getLast? = some t → t.height = bh.height) →
      navUnwind g fuel chain bh acc = some (chain', acc') →
      Contig chain' ∧
      ∃ t', chain'.getLast? = some t' ∧
        acc'.map (fun b => b.header.number) =
          (List.range' (t'.height + 1) acc'.length).reverse := by
  intro fuel
  induction fuel with
  | zero =>
    intro chain bh acc chain' acc' hc hok hdesc hlast h
    rw [navUnwind] at h
    split at h
    · exact absurd h (by simp)
    · next tip hl =>
      split at h
      · exact absurd h (by simp)
      · next heq =>
        injection h with h1
        injection h1 with h2 h3
        subst h2; subst h3
        refine ⟨hc, tip, hl, ?_⟩
        rw [hlast tip hl]
        exact hdesc
  | succ fuel ih =>
    intro chain bh acc chain' acc' hc hok hdesc hlast h
    rw [navUnwind] at h
    split at h
    · exact absurd h (by simp)
    · next tip hl =>
      split at h
      · next hne =>
        split at h
        · exact absurd h (by simp)
        · next b hfetch =>
          have hnum : b.header.number = bh.height := hok b hfetch
          by_cases hz : b.header.number = 0
          · rw [if_pos hz] at h
            exact absurd h (by simp)
          · rw [if_neg hz] at h
            have hok2 : HeadOk g
                { hash := b.header.parent_hash,
                  height := b.header.number - 1 } :=
              navCoherent_headOk hg ⟨.hash bh.hash, hfetch⟩ hz
            have hdesc2 := descTo_extend hdesc hnum (by omega)
            have hlast2 : ∀ t, chain.dropLast.getLast? = some t →
                t.height = b.header.number - 1 := by
              intro t ht
              have := contig_getLast_dropLast hc hl ht
              have htip : tip.height = bh.height := hlast tip hl
              omega
            exact ih _ _ _ _ _ (contig_dropLast hc) hok2 hdesc2 hlast2 h
      · next heq =>
        injection h with h1
        injection h1 with h2 h3
        subst h2; subst h3
        refine ⟨hc, tip, hl, ?_⟩
        rw [hlast tip hl]
        exact hdesc

theorem getLast?_some_of_ne_nil :
    ∀ {l : List HashAndHeight}, l ≠ [] → ∃ t, l.getLast? = some t := by
  intro l
  induction l with
  | nil => intro h; exact absurd rfl h
  | cons x tl ih =>
    intro _
    cases tl with
    | nil => exact ⟨x, rfl⟩
    | cons y tl2 =>
      obtain ⟨t, ht⟩ := ih (by simp)
      exact ⟨t, by rw [List.getLast?_cons_cons]; exact ht⟩

/-- A successful `navFinish` keeps the chain contiguous and non-empty,
provided the incoming chain is contiguous and non-empty and the accumulated
blocks descend to just above its tip. -/
theorem navFinish_spec {chain1 : List HashAndHeight} {acc : List DsBlock}
    {fin : Nat} {u : HotUpdate} {chain2 : List HashAndHeight}
    (hc : Contig chain1) (hne : chain1 ≠ [])
    (hdesc : ∀ t, chain1.getLast? = some t →
      acc.map (fun b => b.header.number) =
        (List.range' (t.height + 1) acc.length).reverse)
    (h : navFinish chain1 acc fin = some (u, chain2)) :
    Contig chain2 ∧ chain2 ≠ [] := by
  obtain ⟨t, ht⟩ := getLast?_some_of_ne_nil hne
  have hmap : ((acc.reverse).map
      (fun b => ({ hash := b.header.hash, height := b.header.number } :
        HashAndHeight))).map (fun x => x.height) =
      List.range' (t.height + 1) ((acc.reverse).map
      (fun b => ({ hash := b.header.hash, height := b.header.number } :
        HashAndHeight))).length := by
    rw [List.map_map, List.length_map, List.length_reverse]
    show (acc.reverse).map (fun b => b.header.number) = _
    rw [List.map_reverse, hdesc t ht, List.reverse_reverse]
  have hcent := contig_of_heights_range' _ _ hmap
  have hglue : Contig (chain1 ++ (acc.reverse).map
      (fun b => ({ hash := b.header.hash, height := b.header.number } :
        HashAndHeight))) := by
    refine contig_glue hc hcent ?_
    intro t0 h0 ht0 hh0
    rw [ht] at ht0
    injection ht0 with ht0
    subst ht0
    cases hent : (acc.reverse).map
        (fun b => ({ hash := b.header.hash, height := b.header.number } :
          HashAndHeight)) with
    | nil => rw [hent] at hh0; exact absurd hh0 (by simp)
    | cons e es =>
      rw [hent] at hh0 hmap
      simp only [List.head?_cons, Option.some.injEq] at hh0
      subst hh0
      have h1 : e.height = t.height + 1 := by
        have h2 := congrArg List.head? hmap
        rw [List.map_cons, List.length_cons, List.range'_succ _ _ 1] at h2
        simpa using h2
      exact h1
  simp only [navFinish] at h
  split at h
  · exact absurd h (by simp)
  · next c0 hc0 =>
    split at h
    · exact absurd h (by simp)
    · next fhOpt hfh =>
      split at h
      · exact absurd h (by simp)
      · next chain2v hch2 =>
        split at h
        · exact absurd h (by simp)
        · next bHead hbh =>
          split at h
          · exact absurd h (by simp)
          · next fh0 hfh0 =>
            injection h with h1
            injection h1 with hu hchain
            subst hchain
            refine ⟨?_, ?_⟩
            · split at hch2
              · split at hch2
                · split at hch2
                  · injection hch2 with hch2
                    subst hch2
                    exact contig_drop _ hglue
                  · exact absurd hch2 (by simp)
                · injection hch2 with hch2
                  subst hch2
                  exact hglue
              · injection hch2 with hch2
                subst hch2
                exact hglue
            · intro hnil
              rw [hnil] at hfh0
              exact absurd hfh0 (by simp)

/-- The heads recorded in a successful `navFinish` result: the update's
blocks are the reversed accumulator, `finalized_head` is the first element
of the updated chain, and `base_head` is the updated tip when no blocks were
produced, else the parent reference of the first block. -/
theorem navFinish_heads {chain1 : List HashAndHeight} {acc : List DsBlock}
    {fin : Nat} {u : HotUpdate} {chain2 : List HashAndHeight}
    (h : navFinish chain1 acc fin = some (u, chain2)) :
    u.blocks = acc.reverse ∧
    some u.finalized_head = chain2.head? ∧
    (u.blocks = [] → some u.base_head = chain2.getLast?) ∧
    (∀ b bs, u.blocks = b :: bs →
      u.base_head = { hash := b.header.parent_hash,
                      height := b.header.number - 1 }) := by
  simp only [navFinish] at h
  split at h
  · exact absurd h (by simp)
  · next c0 hc0 =>
    split at h
    · exact absurd h (by simp)
    · next fhOpt hfh =>
      split at h
      · exact absurd h (by simp)
      · next chain2v hch2 =>
        split at h
        · exact absurd h (by simp)
        · next bHead hbh =>
          split at h
          · exact absurd h (by simp)
          · next fh0 hfh0 =>
            injection h with h1
            injection h1 with hu hchain
            subst hchain
            subst hu
            refine ⟨rfl, ?_, ?_, ?_⟩
            · show some fh0 = _
              rw [hfh0]
            · intro hnil
              have hnil2 : acc.reverse = [] := hnil
              rw [hnil2] at hbh
              have hbh2 : chain2v.getLast? = some bHead := hbh
              show some bHead = _
              exact hbh2.symm
            · intro b bs hcons
              have hcons2 : acc.reverse = b :: bs := hcons
              rw [hcons2] at hbh
              have hbh2 :
                  (some { hash := b.header.parent_hash, height := b.header.number - 1 } :
                    Option HashAndHeight) = some bHead := hbh
              injection hbh2 with hbh2
              show bHead = _
              exact hbh2.symm

/-- A successful `move` against a coherent oracle keeps the chain contiguous
and non-empty. -/
theorem navMove_contig {g : BlockId → Option DsBlock} {fuel : Nat}
    {chain : List HashAndHeight} {best fin : Nat} {u : HotUpdate}
    {chain' : List HashAndHeight} (hg : NavCoherent g) (hc : Contig chain)
    (h : navMove g fuel chain best fin = some (u, chain')) :
    Contig chain' ∧ chain' ≠ [] := by
  rw [navMove] at h
  split at h
  · exact absurd h (by simp)
  · next tip hl =>
    have hne : chain ≠ [] := by
      intro hnil
      rw [hnil] at hl
      exact absurd hl (by simp)
    split at h
    · next hlt =>
      split at h
      · exact absurd h (by simp)
      · next b hfetch =>
        have hnum : b.header.number = best := hg.byNumber best b hfetch
        split at h
        · exact absurd h (by simp)
        · next hnz =>
          split at h
          · exact absurd h (by simp)
          · next bh1 acc1 hwalk =>
            split at h
            · exact absurd h (by simp)
            · next chain1 acc2 hunwind =>
              have hok0 : HeadOk g
                  { hash := b.header.parent_hash,
                    height := b.header.number - 1 } :=
                navCoherent_headOk hg ⟨.number best, hfetch⟩ hnz
              have hdesc0 : DescTo [b]
                  { hash := b.header.parent_hash,
                    height := b.header.number - 1 } := by
                unfold DescTo
                show [b.header.number] = _
                have hx : b.header.number - 1 + 1 = b.header.number := by omega
                rw [List.length_singleton, hx]
                rfl
              have hle0 : tip.height ≤ b.header.number - 1 := by omega
              obtain ⟨hbh1, hok1, hdesc1⟩ :=
                navWalkDown_spec hg fuel _ _ _ _ hok0 hdesc0 hle0 hwalk
              have hlast1 : ∀ t, chain.getLast? = some t →
                  t.height = bh1.height := by
                intro t ht
                rw [hl] at ht
                injection ht with ht
                subst ht
                omega
              obtain ⟨hcont1, t', ht', hdescT⟩ :=
                navUnwind_spec hg fuel _ _ _ _ _ hc hok1 hdesc1 hlast1 hunwind
              have hne1 : chain1 ≠ [] := by
                intro hnil
                rw [hnil] at ht'
                exact absurd ht' (by simp)
              refine navFinish_spec hcont1 hne1 ?_ h
              intro t2 ht2
              rw [ht'] at ht2
              injection ht2 with ht2
              subst ht2
              exact hdescT
    · next hlt =>
      refine navFinish_spec hc hne ?_ h
      intro t2 _
      simp

/-- Helper: the `HotUpdate` heads produced by any successful `move`. -/
theorem navMove_heads_aux {g : BlockId → Option DsBlock} {fuel : Nat}
    {chain : List HashAndHeight} {best fin : Nat} {u : HotUpdate}
    {chain' : List HashAndHeight}
    (h : navMove g fuel chain best fin = some (u, chain')) :
    (u.blocks = [] → some u.base_head = chain'.getLast?) ∧
    (∀ b bs, u.blocks = b :: bs →
      u.base_head = { hash := b.header.parent_hash,
                      height := b.header.number - 1 }) ∧
    some u.finalized_head = chain'.head? := by
  rw [navMove] at h
  split at h
  · exact absurd h (by simp)
  · next tip hl =>
    split at h
    · next hlt =>
      split at h
      · exact absurd h (by simp)
      · next b hfetch =>
        split at h
        · exact absurd h (by simp)
        · next hnz =>
          split at h
          · exact absurd h (by simp)
          · next bh1 acc1 hwalk =>
            split at h
            · exact absurd h (by simp)
            · next chain1 acc2 hunwind =>
              have hh := navFinish_heads h
              exact ⟨hh.2.2.1, hh.2.2.2, hh.2.1⟩
    · next hlt =>
      have hh := navFinish_heads h
      exact ⟨hh.2.2.1, hh.2.2.2, hh.2.1⟩

theorem navReachable_invariant_aux :
    ∀ {c : List HashAndHeight}, NavReachable c → Contig c ∧ c ≠ [] := by
  intro c h
  induction h with
  | init st => exact ⟨contig_singleton st, by simp [navNew]⟩
  | step g fuel best finalized hr hg hmove ih =>
    exact navMove_contig hg ih.1 hmove

/-- C5: in every navigator state reachable by successful `move` calls
against coherent oracles, the chain suffix is non-empty, its anchor sits no
higher than its tip, and any further successful `move` again leaves a
non-empty chain whose first element is the `finalized_head` it reports. -/
theorem forkNavigator_invariant {c : List HashAndHeight}
    (h : NavReachable c) :
    c ≠ [] ∧
    (∀ a z, c.head? = some a → c.getLast? = some z → a.height ≤ z.height) ∧
    (∀ (g : BlockId → Option DsBlock) (fuel best fin : Nat) (u : HotUpdate)
      (c' : List HashAndHeight), NavCoherent g →
      navMove g fuel c best fin = some (u, c') →
      c' ≠ [] ∧ some u.finalized_head = c'.head?) := by
  obtain ⟨hcontig, hne⟩ := navReachable_invariant_aux h
  refine ⟨hne, fun a z ha hz => contig_head_le_last hcontig ha hz, ?_⟩
  intro g fuel best fin u c' hg hmove
  exact ⟨(navMove_contig hg hcontig hmove).2, (navMove_heads_aux hmove).2.2⟩

/-- C5 witness: the invariant at the concrete seeded state `[("0xa", 5)]`. -/
theorem forkNavigator_invariant_witness :
    ([{ hash := "0xa", height := 5 }] : List HashAndHeight) ≠ [] :=
  (forkNavigator_invariant (NavReachable.init { hash := "0xa", height := 5 })).1

/-- C6: postcondition of a successful `ForkNavigator::move`: `base_head` is
the updated chain's tip when no blocks were produced and otherwise the
parent reference `(parent_hash, number - 1)` of the first new block, and
`finalized_head` is the first element of the updated chain. -/
theorem navMove_hotUpdate_heads (g : BlockId → Option DsBlock)
    (fuel : Nat) (chain : List HashAndHeight) (best fin : Nat)
    (u : HotUpdate) (chain' : List HashAndHeight)
    (h : navMove g fuel chain best fin = some (u, chain')) :
    (u.blocks = [] → some u.base_head = chain'.getLast?) ∧
    (∀ b bs, u.blocks = b :: bs →
      u.base_head = { hash := b.header.parent_hash,
                      height := b.header.number - 1 }) ∧
    some u.finalized_head = chain'.head? :=
  navMove_heads_aux h

/-- C6 witness: the postcondition at a concrete successful `move`. -/
theorem navMove_hotUpdate_heads_witness :
    (testUpdate.blocks = [] → some testUpdate.base_head = testChain2.getLast?) ∧
    (∀ b bs, testUpdate.blocks = b :: bs →
      testUpdate.base_head = { hash := b.header.parent_hash,
                               height := b.header.number - 1 }) ∧
    some testUpdate.finalized_head = testChain2.head? :=
  navMove_hotUpdate_heads testOracle 5 [{ hash := "0xa", height := 100 }]
    101 100 testUpdate testChain2 (by decide)

theorem runRetryLoop_consistency :
    ∀ (outcomes : List MoveOutcome) (r : Nat),
      (∀ o ∈ outcomes, o = MoveOutcome.errStr "consistency error") →
      runRetryLoop outcomes r = none := by
  intro outcomes
  induction outcomes with
  | nil => intro r _; rfl
  | cons o rest ih =>
    intro r hall
    have ho : o = MoveOutcome.errStr "consistency error" :=
      hall o (List.mem_cons_self _ _)
    subst ho
    rw [runRetryLoop]
    by_cases hr : r < 10
    · rw [retryStep, if_pos ⟨rfl, hr⟩]
      exact ih _ (fun o2 ho2 => hall o2 (List.mem_cons_of_mem _ ho2))
    · rw [retryStep, if_neg (fun hand => hr hand.2)]
      exact ih _ (fun o2 ho2 => hall o2 (List.mem_cons_of_mem _ ho2))

/-- C7 (code behaviour at the failing input): a `move` that keeps failing
with the `&str` error "consistency error" makes the retry loop run forever —
it never breaks and never propagates, however many outcomes it consumes; the
10-retry budget only stops the sleeping, not the retrying.  The loop also
spins (instead of propagating) on any other `&str` error message. -/
theorem hot_retry_loop_divergence :
    (∀ (outcomes : List MoveOutcome),
      (∀ o ∈ outcomes, o = MoveOutcome.errStr "consistency error") →
      runRetryLoop outcomes 0 = none) ∧
    (∀ r : Nat, 10 ≤ r →
      retryStep (MoveOutcome.errStr "consistency error") r =
        .again r none) ∧
    (∀ (msg : String) (r : Nat), msg ≠ "consistency error" →
      retryStep (MoveOutcome.errStr msg) r = .again r none) ∧
    (∀ r : Nat, retryStep MoveOutcome.errOther r = .propagate) ∧
    (∀ r : Nat, r < 10 →
      retryStep (MoveOutcome.errStr "consistency error") r =
        .again (r + 1) (some (200 * (r + 1)))) := by
  refine ⟨fun outcomes h => runRetryLoop_consistency outcomes 0 h,
    fun r hr => ?_, fun msg r hmsg => ?_, fun r => rfl, fun r hr => ?_⟩
  · rw [retryStep]
    rw [if_neg (by omega)]
  · rw [retryStep]
    rw [if_neg (by simp [hmsg])]
  · rw [retryStep]
    rw [if_pos ⟨rfl, hr⟩]

/-- C7 witness: eleven consecutive consistency errors leave the loop still
running, and the eleventh retry neither sleeps nor terminates. -/
theorem hot_retry_loop_divergence_witness :
    runRetryLoop (List.replicate 11 (MoveOutcome.errStr "consistency error"))
      0 = none ∧
    retryStep (MoveOutcome.errStr "consistency error") 10 =
      .again 10 none :=
  ⟨hot_retry_loop_divergence.1 (List.replicate 11 _)
      (fun o ho => List.eq_of_mem_replicate ho),
   hot_retry_loop_divergence.2.1 10 (by omega)⟩

theorem except_bind_ok {α β : Type} {x : Except String α}
    {f : α → Except String β} {b : β} :
    (x >>= f) = .ok b ↔ ∃ a, x = .ok a ∧ f a = .ok b := by
  cases x with
  | error e => simp [Bind.bind, Except.bind]
  | ok a => simp [Bind.bind, Except.bind]

/-- C8 counterexample: for a transaction whose only call has
`status_reverted = true`, the encoder still emits the archive's status 1,
not the `Reverted(3)` the claim derives from the first call. -/
theorem encode_status_counterexample :
    (encodeTransaction cexTx [] [cexTrace]).map
      (fun w => (w.status, w.calls.map (fun c => c.status_reverted))) =
      .ok ((1 : Int), [true]) ∧ (1 : Int) ≠ 3 := by
  exact ⟨rfl, by decide⟩

/-- C8 (amended): the wire transaction status is the canonical transaction's
`status` field, copied verbatim (src/firehose.rs:369); it is not derived
from the calls. -/
theorem encode_status_spec :
    ∀ (tx : ArchTransaction) (logs : List ArchLog)
      (traces : List ArchTrace) (w : WireTransactionTrace),
      encodeTransaction tx logs traces = .ok w → w.status = tx.status := by
  intro tx logs traces w h
  rw [encodeTransaction] at h
  simp only [except_bind_ok] at h
  obtain ⟨a1, -, a2, -, a3, -, a4, -, a5, -, a6, -, a7, -, a8, -, a9, -,
    a10, -, a11, -, a12, -, a13, -, a14, -, a15, -, a16, -, hw⟩ := h
  injection hw with hw
  subst hw
  rfl

/-- C8 witness: the amended statement at the concrete reverted-call
transaction. -/
theorem encode_status_spec_witness :
    (encodeTransaction cexTx [] [cexTrace]).map (fun w => w.status) =
      .ok cexTx.status := by
  cases hE : encodeTransaction cexTx [] [cexTrace] with
  | error e =>
    have hOk : (encodeTransaction cexTx [] [cexTrace]).isOk = true := by
      decide
    rw [hE] at hOk
    exact absurd hOk (by simp [Except.isOk, Except.toBool])
  | ok w =>
    simp only [Except.map]
    rw [encode_status_spec cexTx [] [cexTrace] w hE]
